import Mathlib

/-!
Shallow embedding of `src/telegram_backend.py` (Telegram member scraper):
contact normalization (`extract_user_info`, `get_user_status`), per-source
pagination (`scrape_group_members`, `scrape_group_members_progressive`),
end-of-harvest deduplication, and the two orchestrators
(`scrape_telegram_members` batch endpoint and the `event_stream` of
`scrape_telegram_members_progressive`).

Remote I/O (Telethon `GetParticipantsRequest`) is modelled as an abstract
fetch function `Nat → Nat → Nat → FetchResult` (fetch index, offset,
requested batch size); the honest remote is `idealFetch` which pages a fixed
participant list by offset.  The unbounded Python `while True` loops are
embedded with explicit fuel; lemmas show the fuel used by the orchestrators
is sufficient.  Wall-clock fields (`scraped_at`, `processing_time`) and the
courtesy `asyncio.sleep` are not modelled.
-/

namespace TgScrape

/-- Raw member record as delivered by the remote client (Telethon `User`).
`statusName` is the class name of `user.status` (`None` when absent). -/
structure RawUser where
  id : Nat
  username : Option String := none
  first_name : Option String := none
  last_name : Option String := none
  phone : Option String := none
  bot : Option Bool := none
  verified : Option Bool := none
  premium : Option Bool := none
  statusName : Option String := none
deriving DecidableEq, Repr

/-- A participant in a fetched page: either a `User` record or some other
entity (channel/chat) that `isinstance(user, User)` rejects. -/
inductive Participant where
  | user (u : RawUser)
  | nonUser
deriving DecidableEq, Repr

/-- The normalized contact record (`ContactInfo` pydantic model);
`scraped_at` (wall clock) is not modelled. -/
structure ContactInfo where
  id : String
  username : Option String
  name : String
  phone : Option String
  is_bot : Bool
  is_verified : Bool
  is_premium : Bool
  status : String
deriving DecidableEq, Repr

/-- Whether `pat` is a prefix of `s` (over character lists). -/
def listStartsWith : List Char → List Char → Bool
  | [], _ => true
  | _ :: _, [] => false
  | a :: as, b :: bs => a = b && listStartsWith as bs

/-- Python substring test `pat in s` (over character lists). -/
def listContains (pat : List Char) : List Char → Bool
  | [] => pat.isEmpty
  | c :: rest => listStartsWith pat (c :: rest) || listContains pat rest

/-- Python `str.strip()`: drop whitespace from both ends. -/
def pyStrip (s : String) : String :=
  ⟨((s.data.dropWhile Char.isWhitespace).reverse.dropWhile Char.isWhitespace).reverse⟩

/-- Python `str.split(sep)` for a one-character separator (empty pieces are
kept, as in Python). -/
def splitCharAux (sep : Char) : List Char → List Char → List (List Char)
  | [], cur => [cur.reverse]
  | c :: rest, cur =>
    if c = sep then cur.reverse :: splitCharAux sep rest []
    else splitCharAux sep rest (c :: cur)

/-- Python `s.split("\n")`. -/
def pySplitNl (s : String) : List String :=
  (splitCharAux (Char.ofNat 10) s.data []).map (fun l => ⟨l⟩)

/-- Python `str.startswith`. -/
def pyStartsWith (pat s : String) : Bool := listStartsWith pat.data s.data

/-- Python `str.replace` (all non-overlapping occurrences, left to right),
with fuel bounded by the string length. -/
def pyReplaceAux (pat sub : List Char) : Nat → List Char → List Char
  | 0, s => s
  | _ + 1, [] => []
  | fuel + 1, c :: rest =>
    if listStartsWith pat (c :: rest) then
      sub ++ pyReplaceAux pat sub fuel ((c :: rest).drop pat.length)
    else c :: pyReplaceAux pat sub fuel rest

/-- Python `s.replace(pat, sub)`. -/
def pyReplace (s pat sub : String) : String :=
  ⟨pyReplaceAux pat.data sub.data s.data.length s.data⟩

/-- Python substring test `pat in s` (for nonempty `pat`). -/
def strContains (s pat : String) : Bool := listContains pat.data s.data

/-- `get_user_status`: map the class name of the raw presence object to a
coarse status string. -/
def get_user_status (u : RawUser) : String :=
  match u.statusName with
  | none => "Unknown"
  | some n =>
    if strContains n "Online" then "Online"
    else if strContains n "Recently" then "Recently"
    else if strContains n "LastWeek" then "Last Week"
    else if strContains n "LastMonth" then "Last Month"
    else if strContains n "Offline" then "Long Time Ago"
    else "Unknown"

/-- Python `a or b or c` on the display-name operands: `a` is a string,
`b` an optional string, `c` a string; first truthy (nonempty, non-None)
operand wins. -/
def fallbackName (a : String) (b : Option String) (c : String) : String :=
  if a ≠ "" then a
  else
    match b with
    | some s => if s ≠ "" then s else c
    | none => c

/-- `extract_user_info`: normalize one raw `User` into a `ContactInfo`. -/
def extract_user_info (u : RawUser) : ContactInfo :=
  { id := toString u.id
    username := u.username
    name := fallbackName
      (pyStrip ((u.first_name.getD "") ++ " " ++ (u.last_name.getD "")))
      u.username
      ("User " ++ toString u.id)
    phone := u.phone
    is_bot := u.bot.getD false
    is_verified := u.verified.getD false
    is_premium := u.premium.getD false
    status := get_user_status u }

/-- End-of-harvest deduplication: walk the accumulated contacts keeping the
first record for each `id` (`if contact.id not in unique_contacts`),
threading the set of ids seen so far. -/
def dedupKeep : List ContactInfo → List String → List ContactInfo
  | [], _ => []
  | c :: rest, seen =>
    if c.id ∈ seen then dedupKeep rest seen
    else c :: dedupKeep rest (c.id :: seen)

/-- `unique_contacts` construction of lines 427-433 / 354-360: insertion
ordered, first-seen wins. -/
def dedupById (cs : List ContactInfo) : List ContactInfo := dedupKeep cs []

/-- Python truthiness of the optional member limit: `if limit:` —
`None` and `0` are falsy. -/
def limActive : Option Nat → Bool
  | none => false
  | some n => decide (n ≠ 0)

/-- The numeric value of an optional limit (only meaningful when active). -/
def limVal (l : Option Nat) : Nat := l.getD 0

/-- Result of one `GetParticipantsRequest`: a page of participants, or an
exception (FloodWait / transient) raised during the call. -/
inductive FetchResult where
  | page (ps : List Participant)
  | fail (msg : String)
deriving DecidableEq, Repr

/-- One resolved remote source: its full participant sequence, an optional
fetch index at which the remote raises, and the group title. -/
structure SourceData where
  parts : List Participant
  errAt : Option Nat := none
  errMsg : String := "error"
  title : String := "Unknown Group"
deriving DecidableEq, Repr

/-- The honest remote: page `i` of the fixed participant list, starting at
`offset`, of at most the requested size. -/
def idealFetch (ps : List Participant) : Nat → Nat → Nat → FetchResult :=
  fun _ off bs => FetchResult.page ((ps.drop off).take bs)

/-- A remote that behaves like `idealFetch` except that fetch number
`errAt` raises. -/
def sourceFetch (s : SourceData) : Nat → Nat → Nat → FetchResult :=
  fun i off bs =>
    match s.errAt with
    | none => idealFetch s.parts i off bs
    | some k => if i = k then FetchResult.fail s.errMsg else idealFetch s.parts i off bs

/-- How a pagination run ended. -/
inductive ExitReason where
  | exhausted
  | limitReached
  | errored (msg : String)
  | fuelOut
deriving DecidableEq, Repr

/-- Final state of one source's pagination. -/
structure ScrapeRun where
  members : List ContactInfo
  offset : Nat
  total : Nat
  fetches : Nat
  exit : ExitReason
deriving DecidableEq, Repr

/-- The `for user in participants.users` body: keep only `User` records,
normalize them, count them, and break once the limit is reached.  Returns
the batch's new contacts and the updated `total_scraped`. -/
def processUsers (limit : Option Nat) : List Participant → Nat → List ContactInfo × Nat
  | [], total => ([], total)
  | Participant.user u :: rest, total =>
    if limActive limit && decide (limVal limit ≤ total + 1) then
      ([extract_user_info u], total + 1)
    else
      let pr := processUsers limit rest (total + 1)
      (extract_user_info u :: pr.1, pr.2)
  | Participant.nonUser :: rest, total => processUsers limit rest total

/-- `batch_size = min(cap, limit - total_scraped if limit else cap)`. -/
def scrapeBatchSize (cap : Nat) (limit : Option Nat) (total : Nat) : Nat :=
  if limActive limit then min cap (limVal limit - total) else cap

/-- The `while True` pagination loop of `scrape_group_members`, with
explicit fuel.  State: accumulated members, offset, `total_scraped`, and
the number of fetch calls made so far. -/
def scrapeLoop (fetch : Nat → Nat → Nat → FetchResult) (cap : Nat) (limit : Option Nat) :
    Nat → List ContactInfo → Nat → Nat → Nat → ScrapeRun
  | 0, acc, off, total, fc => ⟨acc, off, total, fc, ExitReason.fuelOut⟩
  | fuel + 1, acc, off, total, fc =>
    if limActive limit && decide (limVal limit ≤ total) then
      ⟨acc, off, total, fc, ExitReason.limitReached⟩
    else
      match fetch fc off (scrapeBatchSize cap limit total) with
      | FetchResult.fail m => ⟨acc, off, total, fc + 1, ExitReason.errored m⟩
      | FetchResult.page [] => ⟨acc, off, total, fc + 1, ExitReason.exhausted⟩
      | FetchResult.page (p :: ps) =>
        let pr := processUsers limit (p :: ps) total
        scrapeLoop fetch cap limit fuel (acc ++ pr.1) (off + (p :: ps).length) pr.2 (fc + 1)

/-- `scrape_group_members`: one source's pagination with page cap 200. -/
def scrape_group_members (fetch : Nat → Nat → Nat → FetchResult) (limit : Option Nat)
    (fuel : Nat) : ScrapeRun :=
  scrapeLoop fetch 200 limit fuel [] 0 0 0

/-- The `User` records of a page, in order. -/
def usersOf : List Participant → List RawUser
  | [] => []
  | Participant.user u :: rest => u :: usersOf rest
  | Participant.nonUser :: rest => usersOf rest

/-- Number of fetches a no-limit pagination over `n` remaining participants
makes with page cap `cap`: all full/short pages plus the final empty one. -/
def pagesCount (cap : Nat) : Nat → Nat
  | 0 => 1
  | n + 1 => 1 + pagesCount cap (n + 1 - max 1 cap)
termination_by n => n
decreasing_by
  omega

/-- A minimal raw user: only the id is set, so the display name falls back
to the synthesized form. -/
def mkUser (n : Nat) : RawUser := { id := n }

/-- A remote returning the single page `ps` on the first fetch and nothing
afterwards. -/
def onePageFetch (ps : List Participant) : Nat → Nat → Nat → FetchResult :=
  fun i _ _ => if i = 0 then FetchResult.page ps else FetchResult.page []

/-- Outcome of `get_entity` for a cleaned identifier: a resolved source, or
an `HTTPException` (404 group not found / 403 private) with its detail
message. -/
inductive Resolved where
  | ok (s : SourceData)
  | httpErr (msg : String)

/-- `group_links` parsing: split the raw request text on newlines, strip
each link, and drop the empty ones. -/
def splitLinks (s : String) : List String :=
  ((pySplitNl s).map pyStrip).filter (fun l => decide (l ≠ ""))

/-- `get_group_entity`'s identifier cleanup: remove the `https://t.me/`
link form (via `replace`) and a leading `@`. -/
def cleanId (g : String) : String :=
  let g1 := if pyStartsWith "https://t.me/" g then pyReplace g "https://t.me/" "" else g
  if pyStartsWith "@" g1 then ⟨g1.data.drop 1⟩ else g1

/-- `get_group_entity`: clean the identifier, then resolve it against the
remote client (modelled as an environment function). -/
def get_group_entity (env : String → Resolved) (g : String) : Resolved :=
  env (cleanId g)

/-- The `ScrapeResponse` pydantic model (without the wall-clock
`processing_time`). -/
structure BatchResponse where
  status : String
  contacts : List ContactInfo
  total_contacts : Nat
  message : String
deriving DecidableEq, Repr

/-- The per-group loop of the batch endpoint (lines 398-422): resolve each
link (an `HTTPException` propagates and aborts the harvest), stop when the
remaining member budget is exhausted, scrape with `limit = member_limit -
len(all_contacts)`, and extend the raw accumulated list. -/
def processGroups (env : String → Resolved) :
    List String → Option Nat → List ContactInfo → Except String (List ContactInfo)
  | [], _, acc => Except.ok acc
  | link :: rest, ml, acc =>
    match get_group_entity env link with
    | Resolved.httpErr m => Except.error m
    | Resolved.ok s =>
      if limActive ml && decide (limVal ml ≤ acc.length) then Except.ok acc
      else
        let remaining := if limActive ml then some (limVal ml - acc.length) else none
        let r := scrape_group_members (sourceFetch s) remaining (s.parts.length + 1)
        match r.exit with
        | ExitReason.errored m => Except.error m
        | _ => processGroups env rest ml (acc ++ r.members)

/-- `scrape_telegram_members` (the `/api/scrape` batch endpoint): split the
links, fail early when none remain, run the per-group loop, deduplicate by
id at the end, and build the success response. -/
def scrape_telegram_members (env : String → Resolved) (raw : String) (ml : Option Nat) :
    Except String BatchResponse :=
  let links := splitLinks raw
  if links.isEmpty then Except.error "No valid group links provided"
  else
    match processGroups env links ml [] with
    | Except.error m => Except.error m
    | Except.ok all =>
      let finals := dedupById all
      Except.ok
        { status := "success"
          contacts := finals
          total_contacts := finals.length
          message := "Successfully scraped " ++ toString finals.length
            ++ " unique members from " ++ toString links.length ++ " groups" }

/-- Events of the streaming endpoint (both the per-group generator's
`progress`/`error`/`group_complete` dicts and the orchestrator's own
events). -/
inductive SEvent where
  | connected
  | errMsg (msg : String)
  | group_start (url : String) (idx total : Nat)
  | progress (gname : String) (batch processedCnt newCnt : Nat) (members : List ContactInfo)
  | srcError (gname msg : String)
  | group_complete (gname : String) (total : Nat) (members : List ContactInfo)
  | group_error (url msg : String)
  | complete (total : Nat) (contacts : List ContactInfo)
deriving DecidableEq, Repr

/-- Final state of one source's progressive scraping: the events yielded,
the accumulated members, offset, `total_scraped`, `batch_count`, number of
fetches, and how the loop ended. -/
structure ProgRun where
  events : List SEvent
  members : List ContactInfo
  offset : Nat
  total : Nat
  batches : Nat
  fetches : Nat
  exit : ExitReason
deriving DecidableEq, Repr

/-- The `while True` loop of `scrape_group_members_progressive` (page cap
50): like the batch loop but yielding one `progress` event per page with a
nonempty batch. -/
def progCore (fetch : Nat → Nat → Nat → FetchResult) (limit : Option Nat) (gname : String) :
    Nat → List SEvent → List ContactInfo → Nat → Nat → Nat → Nat → ProgRun
  | 0, evs, acc, off, total, bc, fc => ⟨evs, acc, off, total, bc, fc, ExitReason.fuelOut⟩
  | fuel + 1, evs, acc, off, total, bc, fc =>
    if limActive limit && decide (limVal limit ≤ total) then
      ⟨evs, acc, off, total, bc, fc, ExitReason.limitReached⟩
    else
      match fetch fc off (scrapeBatchSize 50 limit total) with
      | FetchResult.fail m => ⟨evs, acc, off, total, bc, fc + 1, ExitReason.errored m⟩
      | FetchResult.page [] => ⟨evs, acc, off, total, bc, fc + 1, ExitReason.exhausted⟩
      | FetchResult.page (p :: ps) =>
        let pr := processUsers limit (p :: ps) total
        let evs2 := if pr.1.isEmpty then evs
          else evs ++ [SEvent.progress gname (bc + 1) pr.2 pr.1.length pr.1]
        let bc2 := if pr.1.isEmpty then bc else bc + 1
        progCore fetch limit gname fuel evs2 (acc ++ pr.1) (off + (p :: ps).length) pr.2 bc2 (fc + 1)

/-- `scrape_group_members_progressive`: run the progressive loop; on an
exception yield an `error` event, otherwise finish with the group's
`group_complete` summary carrying all its members. -/
def scrape_group_members_progressive (fetch : Nat → Nat → Nat → FetchResult)
    (limit : Option Nat) (gname : String) (fuel : Nat) : ProgRun :=
  let r := progCore fetch limit gname fuel [] [] 0 0 0 0
  match r.exit with
  | ExitReason.errored m => { r with events := r.events ++ [SEvent.srcError gname m] }
  | ExitReason.fuelOut => r
  | _ => { r with events := r.events ++ [SEvent.group_complete gname r.members.length r.members] }

/-- The members carried by a `group_complete` event (empty for any other
event). -/
def gcMembers : SEvent → List ContactInfo
  | SEvent.group_complete _ _ ms => ms
  | _ => []

/-- The contacts the orchestrator extends `all_contacts` with while
draining one source's event stream: the members of each `group_complete`
event, in order. -/
def gcConcat (evs : List SEvent) : List ContactInfo := (evs.map gcMembers).flatten

/-- The per-group loop of the streaming endpoint (lines 326-352): emit
`group_start`, resolve (failures become a `group_error` event and the
harvest continues), stop once the budget is exhausted, otherwise drain the
progressive generator, extending `all_contacts` on `group_complete`.
Returns the events emitted and the final `all_contacts`. -/
def streamGroups (env : String → Resolved) (tg : Nat) :
    List String → Option Nat → Nat → List ContactInfo → List SEvent × List ContactInfo
  | [], _, _, acc => ([], acc)
  | link :: rest, ml, pg, acc =>
    match get_group_entity env link with
    | Resolved.httpErr m =>
      let res := streamGroups env tg rest ml pg acc
      (SEvent.group_start link (pg + 1) tg :: SEvent.group_error link m :: res.1, res.2)
    | Resolved.ok s =>
      if limActive ml && decide (limVal ml ≤ acc.length) then
        ([SEvent.group_start link (pg + 1) tg], acc)
      else
        let remaining := if limActive ml then some (limVal ml - acc.length) else none
        let pr := scrape_group_members_progressive (sourceFetch s) remaining s.title
          (s.parts.length + 1)
        let res := streamGroups env tg rest ml (pg + 1) (acc ++ gcConcat pr.events)
        (SEvent.group_start link (pg + 1) tg :: (pr.events ++ res.1), res.2)

/-- The `event_stream` generator of `/api/scrape-progress`: `connected`
first, an `error` event when no links survive splitting, else the per-group
events followed by the final `complete` event with the deduplicated
aggregate. -/
def event_stream (env : String → Resolved) (raw : String) (ml : Option Nat) : List SEvent :=
  let links := splitLinks raw
  if links.isEmpty then [SEvent.connected, SEvent.errMsg "No valid group links provided"]
  else
    let res := streamGroups env links.length links ml 0 []
    let finals := dedupById res.2
    SEvent.connected :: (res.1 ++ [SEvent.complete finals.length finals])

/-- Two contact records with the same id but different display names. -/
def dupA : ContactInfo := extract_user_info (mkUser 1)

/-- A later duplicate of `dupA`'s id carrying a different name. -/
def dupB : ContactInfo := { dupA with name := "Changed" }

/-- A segment of user participants with ids `a, a+1, …, a+b-1`. -/
def userSeg (a b : Nat) : List Participant :=
  (List.range' a b).map (fun n => Participant.user (mkUser n))

/-- Source with members 1..5. -/
def src15 : SourceData := { parts := userSeg 1 5, title := "A" }

/-- Source with members 1..10 (fully containing `src15`'s members). -/
def src110 : SourceData := { parts := userSeg 1 10, title := "B" }

/-- Environment resolving `a` to the 5-member source and `b` to the
10-member superset. -/
def env1 : String → Resolved := fun l =>
  if l = "a" then Resolved.ok src15
  else if l = "b" then Resolved.ok src110
  else Resolved.httpErr ("Group not found: " ++ l)

/-- Source with members 1..2. -/
def srcA2 : SourceData := { parts := userSeg 1 2, title := "A" }

/-- Source with members 3..4. -/
def srcC2 : SourceData := { parts := userSeg 3 2, title := "C" }

/-- Environment resolving `a` and `c` and rejecting everything else as a
private (403) group. -/
def env2 : String → Resolved := fun l =>
  if l = "a" then Resolved.ok srcA2
  else if l = "c" then Resolved.ok srcC2
  else Resolved.httpErr "Group is private or you're not a member"

/-- A resolvable source with no members. -/
def srcEmpty : SourceData := { parts := [], title := "E" }

/-- Environment resolving `e` to the empty source and failing everything
else with a 404. -/
def env8 : String → Resolved := fun l =>
  if l = "e" then Resolved.ok srcEmpty
  else Resolved.httpErr ("Group not found: " ++ l)

/-- The members one source contributes under an optional remaining budget:
its users, truncated at the budget. -/
def srcSpecMembers (remaining : Option Nat) (parts : List Participant) : List ContactInfo :=
  (if limActive remaining then (usersOf parts).take (limVal remaining)
   else usersOf parts).map extract_user_info

/-- A one-source environment where everything resolves to the 2-member
source. -/
def envAllA : String → Resolved := fun _ => Resolved.ok srcA2

/-- A source that errors on its second fetch, after one nonempty page. -/
def srcErr : SourceData :=
  { parts := userSeg 5 2, errAt := some 1, errMsg := "Flood", title := "E" }

/-- A healthy one-member source. -/
def srcOk7 : SourceData := { parts := userSeg 7 1, title := "K" }

/-- Environment resolving `e` to the mid-scrape-failing source and
everything else to the healthy source. -/
def env10 : String → Resolved := fun l =>
  if l = "e" then Resolved.ok srcErr else Resolved.ok srcOk7

/-! ### Deduplication lemmas -/

theorem dedupKeep_sublist : ∀ (cs : List ContactInfo) (seen : List String),
    (dedupKeep cs seen).Sublist cs := by
  intro cs
  induction cs with
  | nil => intro seen; simp [dedupKeep]
  | cons c rest ih =>
    intro seen
    by_cases h : c.id ∈ seen
    · simpa [dedupKeep, h] using (ih seen).cons c
    · simpa [dedupKeep, h] using (ih (c.id :: seen)).cons₂ c

theorem dedupKeep_not_seen : ∀ (cs : List ContactInfo) (seen : List String)
    (c : ContactInfo), c ∈ dedupKeep cs seen → c.id ∉ seen := by
  intro cs
  induction cs with
  | nil => intro seen c hc; simp [dedupKeep] at hc
  | cons x rest ih =>
    intro seen c hc
    by_cases h : x.id ∈ seen
    · exact ih seen c (by simpa [dedupKeep, h] using hc)
    · simp only [dedupKeep, if_neg h, List.mem_cons] at hc
      rcases hc with rfl | hc
      · exact h
      · have := ih _ c hc
        intro hmem
        exact this (List.mem_cons_of_mem _ hmem)

theorem dedupKeep_nodup_ids : ∀ (cs : List ContactInfo) (seen : List String),
    ((dedupKeep cs seen).map ContactInfo.id).Nodup := by
  intro cs
  induction cs with
  | nil => intro seen; simp [dedupKeep]
  | cons c rest ih =>
    intro seen
    by_cases h : c.id ∈ seen
    · simpa [dedupKeep, h] using ih seen
    · rw [dedupKeep, if_neg h, List.map_cons, List.nodup_cons]
      refine ⟨?_, ih (c.id :: seen)⟩
      intro hmem
      rcases List.mem_map.1 hmem with ⟨d, hd, hid⟩
      exact dedupKeep_not_seen rest (c.id :: seen) d hd (hid ▸ List.mem_cons_self _ _)

theorem dedupKeep_find? : ∀ (cs : List ContactInfo) (seen : List String)
    (c : ContactInfo), c ∈ dedupKeep cs seen →
    cs.find? (fun d => decide (d.id = c.id)) = some c := by
  intro cs
  induction cs with
  | nil => intro seen c hc; simp [dedupKeep] at hc
  | cons x rest ih =>
    intro seen c hc
    by_cases h : x.id ∈ seen
    · have hc' : c ∈ dedupKeep rest seen := by simpa [dedupKeep, h] using hc
      have hne : c.id ≠ x.id := by
        intro he
        exact dedupKeep_not_seen rest seen c hc' (he ▸ h)
      have : (decide (x.id = c.id)) = false := by
        simp [decide_eq_false_iff_not]
        exact fun he => hne he.symm
      simp [List.find?, this, ih seen c hc']
    · simp only [dedupKeep, if_neg h, List.mem_cons] at hc
      rcases hc with rfl | hc
      · simp [List.find?]
      · have hnot := dedupKeep_not_seen rest (x.id :: seen) c hc
        have hne : c.id ≠ x.id := by
          intro he
          exact hnot (he ▸ List.mem_cons_self _ _)
        have : (decide (x.id = c.id)) = false := by
          simp [decide_eq_false_iff_not]
          exact fun he => hne he.symm
        simp [List.find?, this, ih (x.id :: seen) c hc]

theorem dedupKeep_covers : ∀ (cs : List ContactInfo) (seen : List String)
    (c : ContactInfo), c ∈ cs →
    (∃ d ∈ dedupKeep cs seen, d.id = c.id) ∨ c.id ∈ seen := by
  intro cs
  induction cs with
  | nil => intro seen c hc; simp at hc
  | cons x rest ih =>
    intro seen c hc
    rcases List.mem_cons.1 hc with rfl | hc
    · by_cases h : c.id ∈ seen
      · exact Or.inr h
      · exact Or.inl ⟨c, by simp [dedupKeep, h], rfl⟩
    · by_cases h : x.id ∈ seen
      · rcases ih seen c hc with ⟨d, hd, hid⟩ | hseen
        · exact Or.inl ⟨d, by simpa [dedupKeep, h] using hd, hid⟩
        · exact Or.inr hseen
      · rcases ih (x.id :: seen) c hc with ⟨d, hd, hid⟩ | hseen
        · exact Or.inl ⟨d, by simp [dedupKeep, h, hd], hid⟩
        · rcases List.mem_cons.1 hseen with he | hseen
          · exact Or.inl ⟨x, by simp [dedupKeep, h], he.symm⟩
          · exact Or.inr hseen

theorem dedupKeep_of_clean : ∀ (cs : List ContactInfo) (seen : List String),
    ((cs.map ContactInfo.id).Nodup) → (∀ c ∈ cs, c.id ∉ seen) →
    dedupKeep cs seen = cs := by
  intro cs
  induction cs with
  | nil => intro seen _ _; simp [dedupKeep]
  | cons c rest ih =>
    intro seen hnodup hfresh
    have hc : c.id ∉ seen := hfresh c (List.mem_cons_self _ _)
    simp only [dedupKeep, hc, if_neg]
    have hnodup' : ((rest.map ContactInfo.id).Nodup) := by
      simpa [List.nodup_cons] using hnodup.of_cons
    refine congrArg (c :: ·) (ih (c.id :: seen) hnodup' ?_)
    intro d hd hmem
    rcases List.mem_cons.1 hmem with he | hmem
    · simp [List.nodup_cons] at hnodup
      exact hnodup.1 d hd he
    · exact hfresh d (List.mem_cons_of_mem _ hd) hmem

theorem dedupById_mem_id : ∀ (cs : List ContactInfo) (c : ContactInfo),
    c ∈ cs → ∃ d ∈ dedupById cs, d.id = c.id := by
  intro cs c hc
  rcases dedupKeep_covers cs [] c hc with h | h
  · exact h
  · simp at h

theorem usersOf_append : ∀ (a b : List Participant),
    usersOf (a ++ b) = usersOf a ++ usersOf b := by
  intro a b
  induction a with
  | nil => simp [usersOf]
  | cons p rest ih =>
    cases p with
    | user u => simp [usersOf, ih]
    | nonUser => simp [usersOf, ih]

theorem drop_take_length (l : List Participant) (n : Nat) :
    l.drop (l.take n).length = l.drop n := by
  rcases Nat.le_total n l.length with h | h
  · rw [List.length_take]
    congr 1
    omega
  · rw [List.length_take]
    have h1 : l.drop (min n l.length) = [] := List.drop_eq_nil_of_le (by omega)
    have h2 : l.drop n = [] := List.drop_eq_nil_of_le h
    rw [h1, h2]

theorem pagesCount_pos_eq (cap n : Nat) (hcap : 1 ≤ cap) (hn : 1 ≤ n) :
    pagesCount cap n = 1 + pagesCount cap (n - cap) := by
  cases n with
  | zero => omega
  | succ m =>
    simp only [pagesCount]
    congr 2
    omega

/-- Closed form of the batch body: the new contacts are the page's users,
truncated at the limit, and `total_scraped` advances by their number. -/
theorem processUsers_spec (limit : Option Nat) : ∀ (page : List Participant) (total : Nat),
    (limActive limit = true → total < limVal limit) →
    processUsers limit page total =
      ((if limActive limit then (usersOf page).take (limVal limit - total)
        else usersOf page).map extract_user_info,
       total + (if limActive limit then min (limVal limit - total) (usersOf page).length
                else (usersOf page).length)) := by
  intro page
  induction page with
  | nil =>
    intro total hpre
    cases h : limActive limit <;> simp [processUsers, usersOf, h]
  | cons p rest ih =>
    intro total hpre
    cases p with
    | nonUser =>
      cases h : limActive limit <;>
        simpa [processUsers, usersOf, h] using ih total hpre
    | user u =>
      cases h : limActive limit with
      | false =>
        have hcond : (limActive limit && decide (limVal limit ≤ total + 1)) = false := by
          simp [h]
        rw [show processUsers limit (Participant.user u :: rest) total =
              (extract_user_info u :: (processUsers limit rest (total + 1)).1,
               (processUsers limit rest (total + 1)).2) by
            simp [processUsers, hcond]]
        rw [ih (total + 1) (by simp [h])]
        simp [usersOf, h]
        omega
      | true =>
        have hr : total < limVal limit := hpre h
        by_cases hhit : limVal limit ≤ total + 1
        · have hcond : (limActive limit && decide (limVal limit ≤ total + 1)) = true := by
            simp [h, hhit]
          rw [show processUsers limit (Participant.user u :: rest) total =
                ([extract_user_info u], total + 1) by simp [processUsers, hcond]]
          have hv : limVal limit - total = 1 := by omega
          simp [usersOf, h, hv]
        · have hcond : (limActive limit && decide (limVal limit ≤ total + 1)) = false := by
            simp [h, hhit]
          rw [show processUsers limit (Participant.user u :: rest) total =
                (extract_user_info u :: (processUsers limit rest (total + 1)).1,
                 (processUsers limit rest (total + 1)).2) by
              simp [processUsers, hcond]]
          rw [ih (total + 1) (by intro _; omega)]
          have hv : limVal limit - total = (limVal limit - (total + 1)) + 1 := by omega
          rw [hv]
          simp [usersOf, h, List.take_succ_cons]
          omega

/-- One unfolding of the loop in the still-running case with a nonempty
page: process the page, advance the offset by the full returned count, and
continue. -/
theorem scrapeLoop_step (fetch : Nat → Nat → Nat → FetchResult) (cap : Nat)
    (limit : Option Nat) (fuel off total fc : Nat) (acc : List ContactInfo)
    (p : Participant) (ps2 : List Participant)
    (hrun : (limActive limit && decide (limVal limit ≤ total)) = false)
    (hfetch : fetch fc off (scrapeBatchSize cap limit total) = FetchResult.page (p :: ps2)) :
    scrapeLoop fetch cap limit (fuel + 1) acc off total fc =
      scrapeLoop fetch cap limit fuel (acc ++ (processUsers limit (p :: ps2) total).1)
        (off + (p :: ps2).length) (processUsers limit (p :: ps2) total).2 (fc + 1) := by
  rw [scrapeLoop, if_neg (by simp [hrun]), hfetch]

/-- With no active limit, a nonempty remainder yields a nonempty page. -/
theorem page_nonempty (l : List Participant) (bs : Nat) (hbs : 1 ≤ bs) (hl : l ≠ []) :
    ∃ p ps2, l.take bs = p :: ps2 := by
  cases hr : l with
  | nil => exact absurd hr hl
  | cons a t =>
    cases hb : bs with
    | zero => omega
    | succ b => exact ⟨a, t.take b, by rw [List.take_succ_cons]⟩

/-- Splitting the remaining participants at the requested batch size. -/
theorem drop_off_split (ps : List Participant) (off bs : Nat) (p : Participant)
    (ps2 : List Participant) (hpage : (ps.drop off).take bs = p :: ps2) :
    ps.drop off = (p :: ps2) ++ (ps.drop off).drop bs
    ∧ ps.drop (off + (p :: ps2).length) = (ps.drop off).drop bs := by
  constructor
  · rw [← hpage, List.take_append_drop]
  · rw [← hpage]
    calc ps.drop (off + ((ps.drop off).take bs).length)
        = ((ps.drop off).drop ((ps.drop off).take bs).length) := by
          rw [List.drop_drop]
      _ = (ps.drop off).drop bs := drop_take_length (ps.drop off) bs

/-- Closed form of the pagination loop against the honest remote when no
limit is active: every remaining user is harvested, the offset advances over
every remaining participant (users or not), the loop makes `pagesCount`
fetches and ends `Exhausted`. -/
theorem scrapeLoop_ideal_noLimit (ps : List Participant) (cap : Nat) (hcap : 1 ≤ cap)
    (limit : Option Nat) (hl : limActive limit = false) :
    ∀ (fuel off total : Nat) (acc : List ContactInfo) (fc : Nat),
    (ps.drop off).length < fuel →
    scrapeLoop (idealFetch ps) cap limit fuel acc off total fc =
      ⟨acc ++ (usersOf (ps.drop off)).map extract_user_info,
       off + (ps.drop off).length,
       total + (usersOf (ps.drop off)).length,
       fc + pagesCount cap (ps.drop off).length,
       ExitReason.exhausted⟩ := by
  intro fuel
  induction fuel with
  | zero =>
    intro off total acc fc hfuel
    omega
  | succ f ih =>
    intro off total acc fc hfuel
    have hrun : (limActive limit && decide (limVal limit ≤ total)) = false := by
      simp [hl]
    have hbscap : scrapeBatchSize cap limit total = cap := by
      simp [scrapeBatchSize, hl]
    by_cases hrest : ps.drop off = []
    · rw [scrapeLoop, if_neg (by simp [hrun])]
      simp only [idealFetch, hrest, List.take_nil]
      simp [hrest, usersOf, pagesCount]
    · obtain ⟨p, ps2, hpage⟩ :=
        page_nonempty (ps.drop off) (scrapeBatchSize cap limit total)
          (by rw [hbscap]; exact hcap) hrest
      obtain ⟨hsplit, hdrop2⟩ := drop_off_split ps off (scrapeBatchSize cap limit total) p ps2 hpage
      have hfetch : idealFetch ps fc off (scrapeBatchSize cap limit total)
          = FetchResult.page (p :: ps2) := by
        simp [idealFetch, hpage]
      have hpu : processUsers limit (p :: ps2) total
          = ((usersOf (p :: ps2)).map extract_user_info,
             total + (usersOf (p :: ps2)).length) := by
        rw [processUsers_spec limit (p :: ps2) total (by rw [hl]; intro hh; cases hh)]
        simp [hl]
      have hlen1 : 1 ≤ (ps.drop off).length := by
        cases hr : ps.drop off with
        | nil => exact absurd hr hrest
        | cons a t => simp [hr]
      have hlensplit := congrArg List.length hsplit
      simp only [List.length_append, List.length_cons] at hlensplit
      have hlen2 : ((ps.drop off).drop (scrapeBatchSize cap limit total)).length < f := by
        have h1 : ((ps.drop off).drop (scrapeBatchSize cap limit total)).length
            = (ps.drop off).length - scrapeBatchSize cap limit total :=
          List.length_drop _ _
        rw [hbscap] at h1
        omega
      have husers : usersOf (ps.drop off)
          = usersOf (p :: ps2) ++ usersOf ((ps.drop off).drop (scrapeBatchSize cap limit total)) := by
        conv_lhs => rw [hsplit]
        rw [usersOf_append]
      rw [scrapeLoop_step (idealFetch ps) cap limit f off total fc acc p ps2 hrun hfetch,
        hpu]
      rw [ih (off + (p :: ps2).length) (total + (usersOf (p :: ps2)).length)
        (acc ++ (usersOf (p :: ps2)).map extract_user_info) (fc + 1)
        (by rw [hdrop2]; exact hlen2)]
      rw [hdrop2]
      have hdroplen : ((ps.drop off).drop (scrapeBatchSize cap limit total)).length
          = (ps.drop off).length - cap := by
        rw [List.length_drop, hbscap]
      have hpc : pagesCount cap (ps.drop off).length
          = 1 + pagesCount cap ((ps.drop off).length - cap) :=
        pagesCount_pos_eq cap (ps.drop off).length hcap hlen1
      simp only [ScrapeRun.mk.injEq]
      refine ⟨?_, ?_, ?_, ?_, trivial⟩
      · rw [husers, List.map_append, List.append_assoc]
      · simp only [List.length_cons]
        omega
      · have := congrArg List.length husers
        simp only [List.length_append] at this
        omega
      · rw [hdroplen, hpc]
        omega

/-- Closed form of the pagination loop against the honest remote when a
limit is active: the harvested members are the first `limit - total`
remaining users; the loop ends `LimitReached` exactly when that many users
remain, else `Exhausted`. -/
theorem scrapeLoop_ideal_limit (ps : List Participant) (cap : Nat) (hcap : 1 ≤ cap)
    (limit : Option Nat) (hl : limActive limit = true) :
    ∀ (fuel off total : Nat) (acc : List ContactInfo) (fc : Nat),
    (ps.drop off).length < fuel →
    total < limVal limit →
    (scrapeLoop (idealFetch ps) cap limit fuel acc off total fc).members
        = acc ++ ((usersOf (ps.drop off)).take (limVal limit - total)).map extract_user_info
    ∧ (scrapeLoop (idealFetch ps) cap limit fuel acc off total fc).exit
        = (if limVal limit - total ≤ (usersOf (ps.drop off)).length
           then ExitReason.limitReached else ExitReason.exhausted) := by
  intro fuel
  induction fuel with
  | zero =>
    intro off total acc fc hfuel htot
    omega
  | succ f ih =>
    intro off total acc fc hfuel htot
    have hrun : (limActive limit && decide (limVal limit ≤ total)) = false := by
      simp only [hl, Bool.true_and, decide_eq_false_iff_not]
      omega
    by_cases hrest : ps.drop off = []
    · have hres : scrapeLoop (idealFetch ps) cap limit (f + 1) acc off total fc =
          ⟨acc, off, total, fc + 1, ExitReason.exhausted⟩ := by
        rw [scrapeLoop, if_neg (by simp [hrun])]
        simp [idealFetch, hrest]
      rw [hres]
      constructor
      · simp [hrest, usersOf]
      · simp only [hrest, usersOf, List.length_nil]
        rw [if_neg (by omega)]
    · have hbs1 : 1 ≤ scrapeBatchSize cap limit total := by
        simp only [scrapeBatchSize, hl, if_pos]
        omega
      obtain ⟨p, ps2, hpage⟩ :=
        page_nonempty (ps.drop off) (scrapeBatchSize cap limit total) hbs1 hrest
      obtain ⟨hsplit, hdrop2⟩ := drop_off_split ps off (scrapeBatchSize cap limit total) p ps2 hpage
      have hfetch : idealFetch ps fc off (scrapeBatchSize cap limit total)
          = FetchResult.page (p :: ps2) := by
        simp [idealFetch, hpage]
      have hlen1 : 1 ≤ (ps.drop off).length := by
        cases hr : ps.drop off with
        | nil => exact absurd hr hrest
        | cons a t => simp [hr]
      have hlen2 : ((ps.drop off).drop (scrapeBatchSize cap limit total)).length < f := by
        have h1 : ((ps.drop off).drop (scrapeBatchSize cap limit total)).length
            = (ps.drop off).length - scrapeBatchSize cap limit total :=
          List.length_drop _ _
        omega
      have husers : usersOf (ps.drop off)
          = usersOf (p :: ps2) ++ usersOf ((ps.drop off).drop (scrapeBatchSize cap limit total)) := by
        conv_lhs => rw [hsplit]
        rw [usersOf_append]
      have hstep := scrapeLoop_step (idealFetch ps) cap limit f off total fc acc p ps2 hrun hfetch
      by_cases hle : limVal limit - total ≤ (usersOf (p :: ps2)).length
      · -- the limit is hit inside this page
        have hpu : processUsers limit (p :: ps2) total
            = (((usersOf (p :: ps2)).take (limVal limit - total)).map extract_user_info,
               total + (limVal limit - total)) := by
          rw [processUsers_spec limit (p :: ps2) total (fun _ => htot)]
          simp only [hl, if_pos]
          have : min (limVal limit - total) (usersOf (p :: ps2)).length
              = limVal limit - total := by omega
          rw [this]
        rw [hpu] at hstep
        have hf1 : 1 ≤ f := by
          have h1 : ((ps.drop off).drop (scrapeBatchSize cap limit total)).length
              = (ps.drop off).length - scrapeBatchSize cap limit total :=
            List.length_drop _ _
          omega
        obtain ⟨g, hg⟩ : ∃ g, f = g + 1 := ⟨f - 1, by omega⟩
        have hdone : scrapeLoop (idealFetch ps) cap limit f
            (acc ++ ((usersOf (p :: ps2)).take (limVal limit - total)).map extract_user_info)
            (off + (p :: ps2).length) (total + (limVal limit - total)) (fc + 1) =
            ⟨acc ++ ((usersOf (p :: ps2)).take (limVal limit - total)).map extract_user_info,
             off + (p :: ps2).length, total + (limVal limit - total), fc + 1,
             ExitReason.limitReached⟩ := by
          rw [hg, scrapeLoop, if_pos]
          simp only [hl, Bool.true_and, decide_eq_true_eq]
          omega
        rw [hstep, hdone]
        constructor
        · rw [husers, List.take_append_eq_append_take]
          have hz : limVal limit - total - (usersOf (p :: ps2)).length = 0 := by omega
          rw [hz]
          simp
        · rw [if_pos]
          rw [husers, List.length_append]
          omega
      · -- the whole page is consumed, continue with the rest
        have hpu : processUsers limit (p :: ps2) total
            = ((usersOf (p :: ps2)).map extract_user_info,
               total + (usersOf (p :: ps2)).length) := by
          rw [processUsers_spec limit (p :: ps2) total (fun _ => htot)]
          simp only [hl, if_pos]
          have hmin : min (limVal limit - total) (usersOf (p :: ps2)).length
              = (usersOf (p :: ps2)).length := by omega
          rw [hmin, List.take_of_length_le (by omega)]
        rw [hpu] at hstep
        have ihres := ih (off + (p :: ps2).length) (total + (usersOf (p :: ps2)).length)
          (acc ++ (usersOf (p :: ps2)).map extract_user_info) (fc + 1)
          (by rw [hdrop2]; exact hlen2) (by omega)
        rw [hdrop2] at ihres
        rw [hstep]
        constructor
        · rw [ihres.1]
          rw [husers, List.take_append_eq_append_take,
            List.take_of_length_le (by omega : (usersOf (p :: ps2)).length ≤ limVal limit - total)]
          have hz : limVal limit - (total + (usersOf (p :: ps2)).length)
              = limVal limit - total - (usersOf (p :: ps2)).length := by omega
          rw [List.map_append, List.append_assoc, hz]
        · rw [ihres.2]
          rw [husers, List.length_append]
          by_cases hc : limVal limit - total
              ≤ (usersOf (p :: ps2)).length
                + (usersOf ((ps.drop off).drop (scrapeBatchSize cap limit total))).length
          · rw [if_pos (by omega), if_pos (by omega)]
          · rw [if_neg (by omega), if_neg (by omega)]

theorem usersOf_map_user : ∀ us : List RawUser,
    usersOf (us.map Participant.user) = us := by
  intro us
  induction us with
  | nil => simp [usersOf]
  | cons u t ih => simp [usersOf, ih]

theorem pagesCount_200_447 : pagesCount 200 447 = 4 := by
  have h0 : pagesCount 200 0 = 1 := by simp [pagesCount]
  have h3 : pagesCount 200 47 = 1 + pagesCount 200 0 := by
    rw [pagesCount_pos_eq 200 47 (by omega) (by omega)]
  have h2 : pagesCount 200 247 = 1 + pagesCount 200 47 := by
    rw [pagesCount_pos_eq 200 247 (by omega) (by omega)]
  have h1 : pagesCount 200 447 = 1 + pagesCount 200 247 := by
    rw [pagesCount_pos_eq 200 447 (by omega) (by omega)]
  rw [h1, h2, h3, h0]

/-- C6: a source of 447 members scraped with no limit sees successive pages
of sizes [200, 200, 47, 0]; the pagination makes exactly 4 fetches,
terminates `Exhausted` on the empty page, harvests exactly 447 members, and
ends with the offset advanced by the returned count of each page (447 in
total). -/
theorem C6_pagination_exhaustion (us : List RawUser) (h : us.length = 447) :
    (scrape_group_members (idealFetch (us.map Participant.user)) none 448).members.length = 447
    ∧ (scrape_group_members (idealFetch (us.map Participant.user)) none 448).fetches = 4
    ∧ (scrape_group_members (idealFetch (us.map Participant.user)) none 448).exit
        = ExitReason.exhausted
    ∧ (scrape_group_members (idealFetch (us.map Participant.user)) none 448).offset = 447 := by
  have hlen : ((us.map Participant.user).drop 0).length < 448 := by
    simp only [List.drop_zero, List.length_map, h]
    omega
  have hrun := scrapeLoop_ideal_noLimit (us.map Participant.user) 200 (by omega) none rfl
    448 0 0 [] 0 hlen
  simp only [scrape_group_members]
  rw [hrun]
  simp [List.drop_zero, usersOf_map_user, h, pagesCount_200_447]

/-- Witness for C6 at a concrete 447-member source. -/
theorem C6_pagination_exhaustion_witness :
    ((List.replicate 447 (mkUser 0)).length = 447)
    ∧ ((scrape_group_members (idealFetch ((List.replicate 447 (mkUser 0)).map Participant.user))
          none 448).members.length = 447
      ∧ (scrape_group_members (idealFetch ((List.replicate 447 (mkUser 0)).map Participant.user))
          none 448).fetches = 4
      ∧ (scrape_group_members (idealFetch ((List.replicate 447 (mkUser 0)).map Participant.user))
          none 448).exit = ExitReason.exhausted
      ∧ (scrape_group_members (idealFetch ((List.replicate 447 (mkUser 0)).map Participant.user))
          none 448).offset = 447) :=
  ⟨by rw [List.length_replicate],
   C6_pagination_exhaustion (List.replicate 447 (mkUser 0)) (by rw [List.length_replicate])⟩

/-- C7: with `limit = 150`, the loop requests a 150-sized batch; if the
remote nonetheless returns a 200-record page, the loop keeps only the first
150 normalized records, makes no second fetch, and exits `LimitReached`. -/
theorem C7_limit_truncation (us : List RawUser) (h : us.length = 200) :
    (scrape_group_members (fun _ _ _ => FetchResult.page (us.map Participant.user))
        (some 150) 2).members = (us.take 150).map extract_user_info
    ∧ (scrape_group_members (fun _ _ _ => FetchResult.page (us.map Participant.user))
        (some 150) 2).fetches = 1
    ∧ (scrape_group_members (fun _ _ _ => FetchResult.page (us.map Participant.user))
        (some 150) 2).exit = ExitReason.limitReached := by
  cases us with
  | nil => simp at h
  | cons u us' =>
    have hrun : (limActive (some 150) && decide (limVal (some 150) ≤ 0)) = false := by
      decide
    have hfetch : (fun (_ _ _ : Nat) => FetchResult.page ((u :: us').map Participant.user)) 0 0
        (scrapeBatchSize 200 (some 150) 0)
        = FetchResult.page (Participant.user u :: us'.map Participant.user) := by
      simp
    have hpu : processUsers (some 150) (Participant.user u :: us'.map Participant.user) 0
        = (((u :: us').take 150).map extract_user_info, 150) := by
      rw [show (Participant.user u :: us'.map Participant.user)
            = (u :: us').map Participant.user by simp]
      rw [processUsers_spec (some 150) ((u :: us').map Participant.user) 0 (by decide)]
      rw [usersOf_map_user]
      have hlv : limVal (some 150) = 150 := rfl
      have hmin : min (limVal (some 150) - 0) (u :: us').length = 150 := by
        rw [hlv, h]
        omega
      rw [hmin]
      have hv : limVal (some 150) - 0 = 150 := by rw [hlv]
      rw [hv]
      simp [limActive]
    simp only [scrape_group_members]
    rw [scrapeLoop_step (fun _ _ _ => FetchResult.page ((u :: us').map Participant.user))
      200 (some 150) 1 0 0 0 [] (Participant.user u) (us'.map Participant.user) hrun hfetch]
    rw [hpu]
    rw [show scrapeLoop (fun _ _ _ => FetchResult.page ((u :: us').map Participant.user))
        200 (some 150) 1 ([] ++ ((u :: us').take 150).map extract_user_info)
        (0 + (Participant.user u :: us'.map Participant.user).length) 150 (0 + 1)
        = ⟨[] ++ ((u :: us').take 150).map extract_user_info,
           0 + (Participant.user u :: us'.map Participant.user).length, 150, 0 + 1,
           ExitReason.limitReached⟩ by
      rw [scrapeLoop, if_pos]
      decide]
    refine ⟨by simp, rfl, rfl⟩

/-- Witness for C7 at a concrete 200-record page. -/
theorem C7_limit_truncation_witness :
    ((List.replicate 200 (mkUser 3)).length = 200)
    ∧ ((scrape_group_members
          (fun _ _ _ => FetchResult.page ((List.replicate 200 (mkUser 3)).map Participant.user))
          (some 150) 2).members = ((List.replicate 200 (mkUser 3)).take 150).map extract_user_info
      ∧ (scrape_group_members
          (fun _ _ _ => FetchResult.page ((List.replicate 200 (mkUser 3)).map Participant.user))
          (some 150) 2).fetches = 1
      ∧ (scrape_group_members
          (fun _ _ _ => FetchResult.page ((List.replicate 200 (mkUser 3)).map Participant.user))
          (some 150) 2).exit = ExitReason.limitReached) :=
  ⟨by rw [List.length_replicate],
   C7_limit_truncation (List.replicate 200 (mkUser 3)) (by rw [List.length_replicate])⟩

/-- C4: deduplication is idempotent with first-seen-wins: ids in the
aggregate are pairwise distinct, each stored record is literally the first
record of the input carrying its id (so a later duplicate with different
fields never overwrites), the aggregate is an order-preserving
subsequence of the input (first-seen insertion order), every input id is
represented, and deduplicating again changes nothing. -/
theorem C4_dedup_first_seen_wins (cs : List ContactInfo) :
    ((dedupById cs).map ContactInfo.id).Nodup
    ∧ (∀ c ∈ dedupById cs, cs.find? (fun d => decide (d.id = c.id)) = some c)
    ∧ (dedupById cs).Sublist cs
    ∧ (∀ c ∈ cs, ∃ d ∈ dedupById cs, d.id = c.id)
    ∧ dedupById (dedupById cs) = dedupById cs := by
  refine ⟨dedupKeep_nodup_ids cs [], ?_, dedupKeep_sublist cs [], dedupById_mem_id cs, ?_⟩
  · intro c hc
    exact dedupKeep_find? cs [] c hc
  · exact dedupKeep_of_clean (dedupById cs) [] (dedupKeep_nodup_ids cs [])
      (by intro c hc; simp)

/-- Witness for C4: merging a changed duplicate of the same id keeps the
first record. -/
theorem C4_dedup_first_seen_wins_witness :
    [dupA, dupB].find? (fun d => decide (d.id = dupA.id)) = some dupA
    ∧ dedupById (dedupById [dupA, dupB]) = dedupById [dupA, dupB] :=
  ⟨(C4_dedup_first_seen_wins [dupA, dupB]).2.1 dupA (by decide),
   (C4_dedup_first_seen_wins [dupA, dupB]).2.2.2.2⟩

/-- C5: the normalized display name is the first non-empty of the trimmed
`firstName ++ " " ++ lastName`, then the username, then the synthesized
`"User " ++ id` (so a member with empty names and no username gets the
synthesized form). -/
theorem C5_display_name_fallback (u : RawUser) :
    (extract_user_info u).name =
      (if pyStrip ((u.first_name.getD "") ++ " " ++ (u.last_name.getD "")) ≠ ""
       then pyStrip ((u.first_name.getD "") ++ " " ++ (u.last_name.getD ""))
       else if (u.username.getD "") ≠ "" then u.username.getD ""
       else "User " ++ toString u.id) := by
  simp only [extract_user_info, fallbackName]
  by_cases ha : pyStrip ((u.first_name.getD "") ++ " " ++ (u.last_name.getD "")) = ""
  · cases hu : u.username with
    | none => simp [ha]
    | some s => by_cases hs : s = "" <;> simp [ha, hs]
  · simp [ha]

/-- One unfolding of the progressive loop in the still-running case with a
nonempty page. -/
theorem progCore_step (fetch : Nat → Nat → Nat → FetchResult) (limit : Option Nat)
    (gname : String) (fuel : Nat) (evs : List SEvent) (acc : List ContactInfo)
    (off total bc fc : Nat) (p : Participant) (ps2 : List Participant)
    (hrun : (limActive limit && decide (limVal limit ≤ total)) = false)
    (hfetch : fetch fc off (scrapeBatchSize 50 limit total) = FetchResult.page (p :: ps2)) :
    progCore fetch limit gname (fuel + 1) evs acc off total bc fc =
      progCore fetch limit gname fuel
        (if (processUsers limit (p :: ps2) total).1.isEmpty then evs
         else evs ++ [SEvent.progress gname (bc + 1) (processUsers limit (p :: ps2) total).2
            (processUsers limit (p :: ps2) total).1.length (processUsers limit (p :: ps2) total).1])
        (acc ++ (processUsers limit (p :: ps2) total).1)
        (off + (p :: ps2).length) (processUsers limit (p :: ps2) total).2
        (if (processUsers limit (p :: ps2) total).1.isEmpty then bc else bc + 1) (fc + 1) := by
  rw [progCore, if_neg (by simp [hrun]), hfetch]

/-- C9: on a page mixing `User` and non-`User` participants, only the users
are normalized — in both pagination variants non-users appear in no member
list and no event, and do not count toward `total_scraped` — yet the offset
advances by the full returned page length, non-users included. -/
theorem C9_only_users_normalized (ps : List Participant) (h : ps ≠ []) :
    (scrape_group_members (onePageFetch ps) none 2).members
        = (usersOf ps).map extract_user_info
    ∧ (scrape_group_members (onePageFetch ps) none 2).total = (usersOf ps).length
    ∧ (scrape_group_members (onePageFetch ps) none 2).offset = ps.length
    ∧ (scrape_group_members (onePageFetch ps) none 2).exit = ExitReason.exhausted
    ∧ (scrape_group_members_progressive (onePageFetch ps) none "G" 2).members
        = (usersOf ps).map extract_user_info
    ∧ (scrape_group_members_progressive (onePageFetch ps) none "G" 2).offset = ps.length
    ∧ (scrape_group_members_progressive (onePageFetch ps) none "G" 2).events
        = (if (usersOf ps).map extract_user_info = [] then ([] : List SEvent)
           else [SEvent.progress "G" 1 (usersOf ps).length
             ((usersOf ps).map extract_user_info).length ((usersOf ps).map extract_user_info)])
          ++ [SEvent.group_complete "G" ((usersOf ps).map extract_user_info).length
             ((usersOf ps).map extract_user_info)] := by
  obtain ⟨p, ps2, rfl⟩ : ∃ p ps2, ps = p :: ps2 := by
    cases ps with
    | nil => exact absurd rfl h
    | cons a t => exact ⟨a, t, rfl⟩
  have hpu : processUsers none (p :: ps2) 0
      = ((usersOf (p :: ps2)).map extract_user_info, 0 + (usersOf (p :: ps2)).length) := by
    rw [processUsers_spec none (p :: ps2) 0 (by intro hh; cases hh)]
    simp [limActive]
  have hpu1 : (processUsers none (p :: ps2) 0).1
      = (usersOf (p :: ps2)).map extract_user_info := by rw [hpu]
  have hpu2 : (processUsers none (p :: ps2) 0).2
      = 0 + (usersOf (p :: ps2)).length := by rw [hpu]
  have hrunB : (limActive none && decide (limVal none ≤ 0)) = false := by decide
  -- batch variant
  have hfetch0 : onePageFetch (p :: ps2) 0 0 (scrapeBatchSize 200 none 0)
      = FetchResult.page (p :: ps2) := rfl
  have hb1 := scrapeLoop_step (onePageFetch (p :: ps2)) 200 none 1 0 0 0 [] p ps2 hrunB hfetch0
  rw [hpu1, hpu2] at hb1
  have hb2 : scrapeLoop (onePageFetch (p :: ps2)) 200 none 1
      ([] ++ (usersOf (p :: ps2)).map extract_user_info) (0 + (p :: ps2).length)
      (0 + (usersOf (p :: ps2)).length) (0 + 1)
      = ⟨[] ++ (usersOf (p :: ps2)).map extract_user_info, 0 + (p :: ps2).length,
         0 + (usersOf (p :: ps2)).length, 0 + 1 + 1, ExitReason.exhausted⟩ := by
    rw [scrapeLoop, if_neg (by simp [limActive])]
    rfl
  -- progressive variant
  have hfetchP : onePageFetch (p :: ps2) 0 0 (scrapeBatchSize 50 none 0)
      = FetchResult.page (p :: ps2) := rfl
  have hp1 := progCore_step (onePageFetch (p :: ps2)) none "G" 1 [] [] 0 0 0 0 p ps2
    hrunB hfetchP
  rw [hpu1, hpu2] at hp1
  have hp2 : ∀ (evs : List SEvent) (bc : Nat),
      progCore (onePageFetch (p :: ps2)) none "G" 1 evs
        ([] ++ (usersOf (p :: ps2)).map extract_user_info) (0 + (p :: ps2).length)
        (0 + (usersOf (p :: ps2)).length) bc (0 + 1)
      = ⟨evs, [] ++ (usersOf (p :: ps2)).map extract_user_info, 0 + (p :: ps2).length,
         0 + (usersOf (p :: ps2)).length, bc, 0 + 1 + 1, ExitReason.exhausted⟩ := by
    intro evs bc
    rw [progCore, if_neg (by simp [limActive])]
    rfl
  have hprog : scrape_group_members_progressive (onePageFetch (p :: ps2)) none "G" 2
      = { events := (if (usersOf (p :: ps2)).map extract_user_info = [] then ([] : List SEvent)
            else [SEvent.progress "G" 1 (0 + (usersOf (p :: ps2)).length)
              ((usersOf (p :: ps2)).map extract_user_info).length
              ((usersOf (p :: ps2)).map extract_user_info)])
            ++ [SEvent.group_complete "G"
              ((usersOf (p :: ps2)).map extract_user_info).length
              ((usersOf (p :: ps2)).map extract_user_info)]
          members := [] ++ (usersOf (p :: ps2)).map extract_user_info
          offset := 0 + (p :: ps2).length
          total := 0 + (usersOf (p :: ps2)).length
          batches := if (usersOf (p :: ps2)).map extract_user_info = [] then 0 else 0 + 1
          fetches := 0 + 1 + 1
          exit := ExitReason.exhausted } := by
    rw [scrape_group_members_progressive]
    rw [show (2 : Nat) = 1 + 1 from rfl]
    rw [hp1]
    cases hms : (usersOf (p :: ps2)).map extract_user_info with
    | nil =>
      simp only [hms, List.nil_append] at hp2
      simp only [List.isEmpty_nil, if_pos, List.nil_append]
      rw [hp2 [] 0]
      simp [hms]
    | cons m ms =>
      simp only [hms, List.nil_append] at hp2
      simp only [List.isEmpty_cons, Bool.false_eq_true, if_neg, List.nil_append, ite_false]
      rw [hp2 _ _]
      simp [hms]
  refine ⟨?_, ?_, ?_, ?_, ?_, ?_, ?_⟩
  · simp only [scrape_group_members]
    rw [hb1, hb2]
    simp
  · simp only [scrape_group_members]
    rw [hb1, hb2]
    simp
  · simp only [scrape_group_members]
    rw [hb1, hb2]
    simp
  · simp only [scrape_group_members]
    rw [hb1, hb2]
  · rw [hprog]
    simp
  · rw [hprog]
    simp
  · rw [hprog]
    simp

/-- Witness for C9 on a page with one user and one non-user participant. -/
theorem C9_only_users_normalized_witness :
    ([Participant.user (mkUser 1), Participant.nonUser] ≠ [])
    ∧ ((scrape_group_members (onePageFetch [Participant.user (mkUser 1), Participant.nonUser])
          none 2).members
        = (usersOf [Participant.user (mkUser 1), Participant.nonUser]).map extract_user_info
      ∧ (scrape_group_members (onePageFetch [Participant.user (mkUser 1), Participant.nonUser])
          none 2).total = (usersOf [Participant.user (mkUser 1), Participant.nonUser]).length
      ∧ (scrape_group_members (onePageFetch [Participant.user (mkUser 1), Participant.nonUser])
          none 2).offset = [Participant.user (mkUser 1), Participant.nonUser].length
      ∧ (scrape_group_members (onePageFetch [Participant.user (mkUser 1), Participant.nonUser])
          none 2).exit = ExitReason.exhausted
      ∧ (scrape_group_members_progressive
          (onePageFetch [Participant.user (mkUser 1), Participant.nonUser]) none "G" 2).members
        = (usersOf [Participant.user (mkUser 1), Participant.nonUser]).map extract_user_info
      ∧ (scrape_group_members_progressive
          (onePageFetch [Participant.user (mkUser 1), Participant.nonUser]) none "G" 2).offset
        = [Participant.user (mkUser 1), Participant.nonUser].length
      ∧ (scrape_group_members_progressive
          (onePageFetch [Participant.user (mkUser 1), Participant.nonUser]) none "G" 2).events
        = (if (usersOf [Participant.user (mkUser 1), Participant.nonUser]).map extract_user_info
              = [] then ([] : List SEvent)
           else [SEvent.progress "G" 1
             (usersOf [Participant.user (mkUser 1), Participant.nonUser]).length
             ((usersOf [Participant.user (mkUser 1), Participant.nonUser]).map
               extract_user_info).length
             ((usersOf [Participant.user (mkUser 1), Participant.nonUser]).map
               extract_user_info)])
          ++ [SEvent.group_complete "G"
             ((usersOf [Participant.user (mkUser 1), Participant.nonUser]).map
               extract_user_info).length
             ((usersOf [Participant.user (mkUser 1), Participant.nonUser]).map
               extract_user_info)]) :=
  ⟨by decide,
   C9_only_users_normalized [Participant.user (mkUser 1), Participant.nonUser] (by decide)⟩

/-- C1 counterexample: with `member_limit = 10`, sources `a` (members 1..5)
and `b` (members 1..10) jointly hold 10 distinct members, yet the batch
harvest returns only 5 unique contacts — the budget passed to source `b` was
decremented by source `a`'s raw batch size, and source `b`'s allowance was
then consumed by 5 duplicates, so duplicates do consume budget. -/
theorem C1_counterexample :
    ((scrape_telegram_members env1 "a\nb" (some 10)).toOption.map
        (fun r => r.total_contacts) = some 5)
    ∧ (dedupById ((usersOf (src15.parts ++ src110.parts)).map extract_user_info)).length
        = 10 := by
  refine ⟨by decide, by decide⟩

/-- C1 amended: the batch orchestrator decrements the budget by the raw
(pre-deduplication) accumulated size — the two-source overlap run
accumulates 10 raw contacts of which only 5 are unique — and in the
full-overlap example (`member_limit = 5`, the same 5 members twice) the
final unique count is still exactly 5. -/
theorem C1_amended_raw_budget :
    ((scrape_telegram_members env1 "a\na" (some 5)).toOption.map
        (fun r => r.total_contacts) = some 5)
    ∧ ((processGroups env1 ["a", "b"] (some 10) []).toOption.map List.length = some 10)
    ∧ ((scrape_telegram_members env1 "a\nb" (some 10)).toOption.map
        (fun r => r.total_contacts) = some 5) := by
  refine ⟨by decide, by decide, by decide⟩

/-- C2 counterexample: in the batch endpoint a forbidden source 2 of 3
aborts the whole harvest (`except HTTPException: raise`), so sources 1 and
3 do not appear in any final aggregate. -/
theorem C2_counterexample :
    scrape_telegram_members env2 "a\nbad\nc" none
      = Except.error "Group is private or you're not a member" := rfl

/-- C2 amended: in the streaming endpoint a forbidden source 2 of 3 only
produces a `group_error` event; sources 1 and 3 complete with their
`group_complete` events and their contacts form the final `complete`
aggregate — while the same input aborts the batch endpoint. -/
theorem C2_amended_streaming_isolation :
    (SEvent.group_error "bad" "Group is private or you're not a member"
        ∈ event_stream env2 "a\nbad\nc" none)
    ∧ (SEvent.group_complete "A" 2 ((usersOf srcA2.parts).map extract_user_info)
        ∈ event_stream env2 "a\nbad\nc" none)
    ∧ (SEvent.group_complete "C" 2 ((usersOf srcC2.parts).map extract_user_info)
        ∈ event_stream env2 "a\nbad\nc" none)
    ∧ ((event_stream env2 "a\nbad\nc" none).getLast?
        = some (SEvent.complete 4
            ((usersOf (srcA2.parts ++ srcC2.parts)).map extract_user_info)))
    ∧ scrape_telegram_members env2 "a\nbad\nc" none
        = Except.error "Group is private or you're not a member" := by
  refine ⟨by decide, by decide, by decide, by decide, rfl⟩

/-- C3 counterexample: on a harvest whose second source is forbidden, the
streaming endpoint still completes with source 1's contacts while the batch
endpoint returns an error and no contact set at all, so the two modes do
not compute the same result. -/
theorem C3_counterexample :
    ((event_stream env2 "a\nbad" none).getLast?
        = some (SEvent.complete 2 ((usersOf srcA2.parts).map extract_user_info)))
    ∧ scrape_telegram_members env2 "a\nbad" none
        = Except.error "Group is private or you're not a member" := by
  refine ⟨by decide, rfl⟩

/-- C8 counterexample: a batch harvest in which zero sources succeed (both
links fail to resolve) does not return a success with an empty list — the
first `HTTPException` aborts it. -/
theorem C8_counterexample :
    scrape_telegram_members env8 "x\ny" none
      = Except.error "Group not found: x" := rfl

/-! ### General lemmas about the streaming pipeline -/

theorem gcConcat_append (a b : List SEvent) :
    gcConcat (a ++ b) = gcConcat a ++ gcConcat b := by
  simp [gcConcat, List.flatten_append]

theorem gcConcat_mem (evs : List SEvent) (c : ContactInfo) (hc : c ∈ gcConcat evs) :
    ∃ g t ms, SEvent.group_complete g t ms ∈ evs ∧ c ∈ ms := by
  simp only [gcConcat, List.mem_flatten, List.mem_map] at hc
  obtain ⟨l, ⟨e, he, hl⟩, hcl⟩ := hc
  cases e with
  | group_complete g t ms =>
    refine ⟨g, t, ms, he, ?_⟩
    have hml : ms = l := hl
    rw [hml]
    exact hcl
  | connected => rw [← hl] at hcl; simp [gcMembers] at hcl
  | errMsg m => rw [← hl] at hcl; simp [gcMembers] at hcl
  | group_start u i t => rw [← hl] at hcl; simp [gcMembers] at hcl
  | progress g b p n ms => rw [← hl] at hcl; simp [gcMembers] at hcl
  | srcError g m => rw [← hl] at hcl; simp [gcMembers] at hcl
  | group_error u m => rw [← hl] at hcl; simp [gcMembers] at hcl
  | complete t cs => rw [← hl] at hcl; simp [gcMembers] at hcl

/-- The progressive loop body only appends `progress` events, so the
`group_complete` payload of its event list is whatever it started with. -/
theorem progCore_gcConcat (fetch : Nat → Nat → Nat → FetchResult) (limit : Option Nat)
    (gname : String) :
    ∀ (fuel : Nat) (evs : List SEvent) (acc : List ContactInfo) (off total bc fc : Nat),
    gcConcat (progCore fetch limit gname fuel evs acc off total bc fc).events = gcConcat evs := by
  intro fuel
  induction fuel with
  | zero => intro evs acc off total bc fc; rfl
  | succ f ih =>
    intro evs acc off total bc fc
    cases hb : (limActive limit && decide (limVal limit ≤ total)) with
    | true => rw [progCore, if_pos hb]
    | false =>
      cases hf : fetch fc off (scrapeBatchSize 50 limit total) with
      | fail m => rw [progCore, if_neg (by simp [hb]), hf]
      | page ps =>
        cases ps with
        | nil => rw [progCore, if_neg (by simp [hb]), hf]
        | cons p ps2 =>
          rw [progCore_step fetch limit gname f evs acc off total bc fc p ps2 hb hf, ih]
          by_cases he : (processUsers limit (p :: ps2) total).1.isEmpty = true
          · rw [if_pos he]
          · rw [if_neg he, gcConcat_append]
            simp [gcConcat, gcMembers]

/-- The progressive loop never emits a `group_complete` event itself. -/
theorem progCore_no_gc (fetch : Nat → Nat → Nat → FetchResult) (limit : Option Nat)
    (gname : String) :
    ∀ (fuel : Nat) (evs : List SEvent) (acc : List ContactInfo) (off total bc fc : Nat)
      (g : String) (t : Nat) (ms : List ContactInfo),
    SEvent.group_complete g t ms ∉ evs →
    SEvent.group_complete g t ms
      ∉ (progCore fetch limit gname fuel evs acc off total bc fc).events := by
  intro fuel
  induction fuel with
  | zero => intro evs acc off total bc fc g t ms hnot; exact hnot
  | succ f ih =>
    intro evs acc off total bc fc g t ms hnot
    cases hb : (limActive limit && decide (limVal limit ≤ total)) with
    | true => rw [progCore, if_pos hb]; exact hnot
    | false =>
      cases hf : fetch fc off (scrapeBatchSize 50 limit total) with
      | fail m => rw [progCore, if_neg (by simp [hb]), hf]; exact hnot
      | page ps =>
        cases ps with
        | nil => rw [progCore, if_neg (by simp [hb]), hf]; exact hnot
        | cons p ps2 =>
          rw [progCore_step fetch limit gname f evs acc off total bc fc p ps2 hb hf]
          apply ih
          by_cases he : (processUsers limit (p :: ps2) total).1.isEmpty = true
          · rw [if_pos he]; exact hnot
          · rw [if_neg he]
            intro hmem
            rcases List.mem_append.1 hmem with h | h
            · exact hnot h
            · simp at h

/-- The progressive loop computes the same members and exit reason as the
batch loop run with page cap 50 — the extra event/batch bookkeeping does not
change the harvesting. -/
theorem progCore_eq_scrapeLoop (fetch : Nat → Nat → Nat → FetchResult) (limit : Option Nat)
    (gname : String) :
    ∀ (fuel : Nat) (evs : List SEvent) (acc : List ContactInfo) (off total bc fc : Nat),
    (progCore fetch limit gname fuel evs acc off total bc fc).members
        = (scrapeLoop fetch 50 limit fuel acc off total fc).members
    ∧ (progCore fetch limit gname fuel evs acc off total bc fc).exit
        = (scrapeLoop fetch 50 limit fuel acc off total fc).exit := by
  intro fuel
  induction fuel with
  | zero => intro evs acc off total bc fc; exact ⟨rfl, rfl⟩
  | succ f ih =>
    intro evs acc off total bc fc
    cases hb : (limActive limit && decide (limVal limit ≤ total)) with
    | true =>
      rw [progCore, scrapeLoop, if_pos hb, if_pos hb]
      exact ⟨rfl, rfl⟩
    | false =>
      cases hf : fetch fc off (scrapeBatchSize 50 limit total) with
      | fail m =>
        rw [progCore, scrapeLoop, if_neg (by simp [hb]), if_neg (by simp [hb]), hf]
        exact ⟨rfl, rfl⟩
      | page ps =>
        cases ps with
        | nil =>
          rw [progCore, scrapeLoop, if_neg (by simp [hb]), if_neg (by simp [hb]), hf]
          exact ⟨rfl, rfl⟩
        | cons p ps2 =>
          rw [progCore_step fetch limit gname f evs acc off total bc fc p ps2 hb hf,
            scrapeLoop_step fetch 50 limit f off total fc acc p ps2 hb hf]
          apply ih

/-- When the progressive loop ends `Exhausted` or `LimitReached`, the
generator finishes with the `group_complete` summary event. -/
theorem prog_wrapper_complete (fetch : Nat → Nat → Nat → FetchResult) (limit : Option Nat)
    (gname : String) (fuel : Nat)
    (h : (progCore fetch limit gname fuel [] [] 0 0 0 0).exit = ExitReason.exhausted
       ∨ (progCore fetch limit gname fuel [] [] 0 0 0 0).exit = ExitReason.limitReached) :
    (scrape_group_members_progressive fetch limit gname fuel).events
      = (progCore fetch limit gname fuel [] [] 0 0 0 0).events
        ++ [SEvent.group_complete gname
            (progCore fetch limit gname fuel [] [] 0 0 0 0).members.length
            (progCore fetch limit gname fuel [] [] 0 0 0 0).members]
    ∧ (scrape_group_members_progressive fetch limit gname fuel).members
      = (progCore fetch limit gname fuel [] [] 0 0 0 0).members := by
  rcases h with h | h
  all_goals
    simp only [scrape_group_members_progressive]
    rw [h]
    exact ⟨rfl, rfl⟩

/-- When the progressive loop errors, the generator finishes with the
`error` event instead — no `group_complete` is ever emitted. -/
theorem prog_wrapper_errored (fetch : Nat → Nat → Nat → FetchResult) (limit : Option Nat)
    (gname : String) (fuel : Nat) (m : String)
    (h : (progCore fetch limit gname fuel [] [] 0 0 0 0).exit = ExitReason.errored m) :
    (scrape_group_members_progressive fetch limit gname fuel).events
      = (progCore fetch limit gname fuel [] [] 0 0 0 0).events ++ [SEvent.srcError gname m] := by
  simp only [scrape_group_members_progressive]
  rw [h]

/-- A source that never raises behaves as the honest remote. -/
theorem sourceFetch_none (s : SourceData) (herr : s.errAt = none) :
    sourceFetch s = idealFetch s.parts := by
  funext i o b
  simp [sourceFetch, herr]

/-- For an error-free source and an inactive-or-positive remaining budget,
the batch scrape and the progressive generator harvest the same members
(the page cap — 200 vs 50 — does not matter), neither errors, and the
generator's `group_complete` payload is exactly those members. -/
theorem sourceRun_facts (s : SourceData) (herr : s.errAt = none) (remaining : Option Nat)
    (hpre : limActive remaining = true → 0 < limVal remaining) :
    (scrape_group_members (sourceFetch s) remaining (s.parts.length + 1)).members
        = srcSpecMembers remaining s.parts
    ∧ ((scrape_group_members (sourceFetch s) remaining (s.parts.length + 1)).exit
          = ExitReason.exhausted
        ∨ (scrape_group_members (sourceFetch s) remaining (s.parts.length + 1)).exit
          = ExitReason.limitReached)
    ∧ gcConcat (scrape_group_members_progressive (sourceFetch s) remaining s.title
        (s.parts.length + 1)).events = srcSpecMembers remaining s.parts := by
  rw [sourceFetch_none s herr]
  have hfuel : (s.parts.drop 0).length < s.parts.length + 1 := by simp
  have hbridge := progCore_eq_scrapeLoop (idealFetch s.parts) remaining s.title
    (s.parts.length + 1) [] [] 0 0 0 0
  cases hla : limActive remaining with
  | false =>
    have hb := scrapeLoop_ideal_noLimit s.parts 200 (by omega) remaining hla
      (s.parts.length + 1) 0 0 [] 0 hfuel
    have hp := scrapeLoop_ideal_noLimit s.parts 50 (by omega) remaining hla
      (s.parts.length + 1) 0 0 [] 0 hfuel
    have hpm : (progCore (idealFetch s.parts) remaining s.title
        (s.parts.length + 1) [] [] 0 0 0 0).members = srcSpecMembers remaining s.parts := by
      rw [hbridge.1, hp]
      simp [srcSpecMembers, hla]
    have hpe : (progCore (idealFetch s.parts) remaining s.title
        (s.parts.length + 1) [] [] 0 0 0 0).exit = ExitReason.exhausted := by
      rw [hbridge.2, hp]
    obtain ⟨hev, hmem⟩ := prog_wrapper_complete (idealFetch s.parts) remaining s.title
      (s.parts.length + 1) (Or.inl hpe)
    refine ⟨?_, Or.inl ?_, ?_⟩
    · simp only [scrape_group_members]
      rw [hb]
      simp [srcSpecMembers, hla]
    · simp only [scrape_group_members]
      rw [hb]
    · rw [hev, gcConcat_append, progCore_gcConcat, hpm]
      simp [gcConcat, gcMembers]
  | true =>
    have htot : 0 < limVal remaining := hpre hla
    have hb := scrapeLoop_ideal_limit s.parts 200 (by omega) remaining hla
      (s.parts.length + 1) 0 0 [] 0 hfuel htot
    have hp := scrapeLoop_ideal_limit s.parts 50 (by omega) remaining hla
      (s.parts.length + 1) 0 0 [] 0 hfuel htot
    have hms : ((usersOf ((s.parts).drop 0)).take (limVal remaining - 0)).map extract_user_info
        = srcSpecMembers remaining s.parts := by
      simp [srcSpecMembers, hla]
    have hpm : (progCore (idealFetch s.parts) remaining s.title
        (s.parts.length + 1) [] [] 0 0 0 0).members = srcSpecMembers remaining s.parts := by
      rw [hbridge.1, hp.1, ← hms]
      simp
    have hpe : (progCore (idealFetch s.parts) remaining s.title
        (s.parts.length + 1) [] [] 0 0 0 0).exit = ExitReason.exhausted
        ∨ (progCore (idealFetch s.parts) remaining s.title
        (s.parts.length + 1) [] [] 0 0 0 0).exit = ExitReason.limitReached := by
      rw [hbridge.2, hp.2]
      by_cases hc : limVal remaining - 0 ≤ (usersOf ((s.parts).drop 0)).length
      · exact Or.inr (by rw [if_pos hc])
      · exact Or.inl (by rw [if_neg hc])
    obtain ⟨hev, hmem⟩ := prog_wrapper_complete (idealFetch s.parts) remaining s.title
      (s.parts.length + 1) hpe
    refine ⟨?_, ?_, ?_⟩
    · simp only [scrape_group_members]
      rw [hb.1, ← hms]
      simp
    · simp only [scrape_group_members]
      rw [hb.2]
      by_cases hc : limVal remaining - 0 ≤ (usersOf ((s.parts).drop 0)).length
      · exact Or.inr (by rw [if_pos hc])
      · exact Or.inl (by rw [if_neg hc])
    · rw [hev, gcConcat_append, progCore_gcConcat, hpm]
      simp [gcConcat, gcMembers]

/-! ### Step equations for the two orchestrators -/

theorem processGroups_err (env : String → Resolved) (link : String) (rest : List String)
    (ml : Option Nat) (acc : List ContactInfo) (m : String)
    (hres : get_group_entity env link = Resolved.httpErr m) :
    processGroups env (link :: rest) ml acc = Except.error m := by
  rw [processGroups]
  split
  next m2 hm =>
    rw [hres] at hm
    injection hm with h2
    rw [h2]
  next s2 hs =>
    rw [hres] at hs
    cases hs

theorem processGroups_break (env : String → Resolved) (link : String) (rest : List String)
    (ml : Option Nat) (acc : List ContactInfo) (s : SourceData)
    (hres : get_group_entity env link = Resolved.ok s)
    (hb : (limActive ml && decide (limVal ml ≤ acc.length)) = true) :
    processGroups env (link :: rest) ml acc = Except.ok acc := by
  rw [processGroups]
  split
  next m2 hm =>
    rw [hres] at hm
    cases hm
  next s2 hs =>
    rw [hres] at hs
    injection hs with h2
    subst h2
    rw [if_pos hb]

theorem processGroups_ok (env : String → Resolved) (link : String) (rest : List String)
    (ml : Option Nat) (acc : List ContactInfo) (s : SourceData)
    (hres : get_group_entity env link = Resolved.ok s)
    (hb : (limActive ml && decide (limVal ml ≤ acc.length)) = false)
    (hex : (scrape_group_members (sourceFetch s)
        (if limActive ml then some (limVal ml - acc.length) else none)
        (s.parts.length + 1)).exit = ExitReason.exhausted
      ∨ (scrape_group_members (sourceFetch s)
        (if limActive ml then some (limVal ml - acc.length) else none)
        (s.parts.length + 1)).exit = ExitReason.limitReached) :
    processGroups env (link :: rest) ml acc
      = processGroups env rest ml (acc ++ (scrape_group_members (sourceFetch s)
          (if limActive ml then some (limVal ml - acc.length) else none)
          (s.parts.length + 1)).members) := by
  rw [processGroups]
  split
  next m2 hm =>
    rw [hres] at hm
    cases hm
  next s2 hs =>
    rw [hres] at hs
    injection hs with h2
    subst h2
    rw [if_neg (by simp [hb])]
    show (match (scrape_group_members (sourceFetch s)
        (if limActive ml then some (limVal ml - acc.length) else none)
        (s.parts.length + 1)).exit with
      | ExitReason.errored m => Except.error m
      | _ => processGroups env rest ml (acc ++ (scrape_group_members (sourceFetch s)
          (if limActive ml then some (limVal ml - acc.length) else none)
          (s.parts.length + 1)).members)) = _
    rcases hex with h | h <;> rw [h]

theorem streamGroups_err (env : String → Resolved) (tg : Nat) (link : String)
    (rest : List String) (ml : Option Nat) (pg : Nat) (acc : List ContactInfo) (m : String)
    (hres : get_group_entity env link = Resolved.httpErr m) :
    streamGroups env tg (link :: rest) ml pg acc
      = (SEvent.group_start link (pg + 1) tg :: SEvent.group_error link m
          :: (streamGroups env tg rest ml pg acc).1,
         (streamGroups env tg rest ml pg acc).2) := by
  rw [streamGroups]
  split
  next m2 hm =>
    rw [hres] at hm
    injection hm with h2
    rw [h2]
  next s2 hs =>
    rw [hres] at hs
    cases hs

theorem streamGroups_break (env : String → Resolved) (tg : Nat) (link : String)
    (rest : List String) (ml : Option Nat) (pg : Nat) (acc : List ContactInfo) (s : SourceData)
    (hres : get_group_entity env link = Resolved.ok s)
    (hb : (limActive ml && decide (limVal ml ≤ acc.length)) = true) :
    streamGroups env tg (link :: rest) ml pg acc
      = ([SEvent.group_start link (pg + 1) tg], acc) := by
  rw [streamGroups]
  split
  next m2 hm =>
    rw [hres] at hm
    cases hm
  next s2 hs =>
    rw [hres] at hs
    injection hs with h2
    subst h2
    rw [if_pos hb]

theorem streamGroups_ok (env : String → Resolved) (tg : Nat) (link : String)
    (rest : List String) (ml : Option Nat) (pg : Nat) (acc : List ContactInfo) (s : SourceData)
    (hres : get_group_entity env link = Resolved.ok s)
    (hb : (limActive ml && decide (limVal ml ≤ acc.length)) = false) :
    streamGroups env tg (link :: rest) ml pg acc
      = (SEvent.group_start link (pg + 1) tg ::
          ((scrape_group_members_progressive (sourceFetch s)
              (if limActive ml then some (limVal ml - acc.length) else none) s.title
              (s.parts.length + 1)).events
            ++ (streamGroups env tg rest ml (pg + 1)
                (acc ++ gcConcat (scrape_group_members_progressive (sourceFetch s)
                  (if limActive ml then some (limVal ml - acc.length) else none) s.title
                  (s.parts.length + 1)).events)).1),
         (streamGroups env tg rest ml (pg + 1)
            (acc ++ gcConcat (scrape_group_members_progressive (sourceFetch s)
              (if limActive ml then some (limVal ml - acc.length) else none) s.title
              (s.parts.length + 1)).events)).2) := by
  rw [streamGroups]
  split
  next m2 hm =>
    rw [hres] at hm
    cases hm
  next s2 hs =>
    rw [hres] at hs
    injection hs with h2
    subst h2
    rw [if_neg (by simp [hb])]

/-- The per-source budget handed to the pagination is inactive or positive:
the orchestrator already broke out when it was exhausted. -/
theorem remaining_pre (ml : Option Nat) (acc : List ContactInfo)
    (hb : (limActive ml && decide (limVal ml ≤ acc.length)) = false) :
    limActive (if limActive ml then some (limVal ml - acc.length) else none) = true
      → 0 < limVal (if limActive ml then some (limVal ml - acc.length) else none) := by
  cases hml : limActive ml with
  | false => simp [limActive]
  | true =>
    rw [hml] at hb
    simp only [Bool.true_and, decide_eq_false_iff_not] at hb
    simp only [if_pos]
    intro _
    rw [show limVal (some (limVal ml - acc.length)) = limVal ml - acc.length from rfl]
    omega

/-- Driving both orchestrators over the same error-free sources accumulates
the same raw contact list: the batch loop succeeds and the streaming loop's
final `all_contacts` equals its result. -/
theorem processGroups_streamGroups_eq (env : String → Resolved) (tg : Nat) :
    ∀ (links : List String) (ml : Option Nat) (pg : Nat) (acc : List ContactInfo),
    (∀ l ∈ links, ∃ s, get_group_entity env l = Resolved.ok s ∧ s.errAt = none) →
    ∃ A, processGroups env links ml acc = Except.ok A
      ∧ (streamGroups env tg links ml pg acc).2 = A := by
  intro links
  induction links with
  | nil => intro ml pg acc _; exact ⟨acc, rfl, rfl⟩
  | cons link rest ih =>
    intro ml pg acc hok
    obtain ⟨s, hres, herr⟩ := hok link (List.mem_cons_self _ _)
    have hok' : ∀ l ∈ rest, ∃ s, get_group_entity env l = Resolved.ok s ∧ s.errAt = none :=
      fun l hl => hok l (List.mem_cons_of_mem _ hl)
    cases hb : (limActive ml && decide (limVal ml ≤ acc.length)) with
    | true =>
      refine ⟨acc, ?_, ?_⟩
      · rw [processGroups_break env link rest ml acc s hres hb]
      · rw [streamGroups_break env tg link rest ml pg acc s hres hb]
    | false =>
      obtain ⟨hm, hex, hgc⟩ := sourceRun_facts s herr
        (if limActive ml then some (limVal ml - acc.length) else none)
        (remaining_pre ml acc hb)
      obtain ⟨A, hA1, hA2⟩ := ih ml (pg + 1)
        (acc ++ srcSpecMembers (if limActive ml then some (limVal ml - acc.length) else none)
          s.parts) hok'
      refine ⟨A, ?_, ?_⟩
      · rw [processGroups_ok env link rest ml acc s hres hb hex, hm]
        exact hA1
      · rw [streamGroups_ok env tg link rest ml pg acc s hres hb]
        rw [show gcConcat (scrape_group_members_progressive (sourceFetch s)
            (if limActive ml then some (limVal ml - acc.length) else none) s.title
            (s.parts.length + 1)).events
          = srcSpecMembers (if limActive ml then some (limVal ml - acc.length) else none)
            s.parts from hgc]
        exact hA2

/-- C3 amended: on identical input whose sources all resolve and scrape
without error (and no cancellation), the streaming endpoint's final
`complete` event carries exactly the batch endpoint's deduplicated contact
set and count. -/
theorem C3_stream_batch_equivalence (env : String → Resolved) (raw : String) (ml : Option Nat)
    (hne : splitLinks raw ≠ [])
    (hok : ∀ l ∈ splitLinks raw, ∃ s, get_group_entity env l = Resolved.ok s ∧ s.errAt = none) :
    ∃ r, scrape_telegram_members env raw ml = Except.ok r
      ∧ (event_stream env raw ml).getLast?
          = some (SEvent.complete r.total_contacts r.contacts) := by
  obtain ⟨A, hbatch, hstream⟩ := processGroups_streamGroups_eq env (splitLinks raw).length
    (splitLinks raw) ml 0 [] hok
  have hnemp : (splitLinks raw).isEmpty = false := by
    cases hsp : splitLinks raw with
    | nil => exact absurd hsp hne
    | cons a t => rfl
  refine ⟨{ status := "success", contacts := dedupById A,
            total_contacts := (dedupById A).length,
            message := "Successfully scraped " ++ toString (dedupById A).length
              ++ " unique members from " ++ toString (splitLinks raw).length ++ " groups" },
          ?_, ?_⟩
  · simp [scrape_telegram_members, hnemp, hbatch]
  · simp only [event_stream, hnemp, Bool.false_eq_true, if_false, hstream]
    rw [← List.cons_append, List.getLast?_concat]

/-- Witness for C3 on a concrete error-free harvest. -/
theorem C3_stream_batch_equivalence_witness :
    (splitLinks "a" ≠ [])
    ∧ (∃ r, scrape_telegram_members envAllA "a" none = Except.ok r
        ∧ (event_stream envAllA "a" none).getLast?
            = some (SEvent.complete r.total_contacts r.contacts)) :=
  ⟨by decide, C3_stream_batch_equivalence envAllA "a" none (by decide)
    (fun l _ => ⟨srcA2, rfl, rfl⟩)⟩

/-- Every contact in the streaming loop's final `all_contacts` either was
already accumulated or is carried by some `group_complete` event the loop
emitted. -/
theorem streamGroups_sound (env : String → Resolved) (tg : Nat) :
    ∀ (links : List String) (ml : Option Nat) (pg : Nat) (acc : List ContactInfo)
      (c : ContactInfo),
    c ∈ (streamGroups env tg links ml pg acc).2 →
    c ∈ acc ∨ ∃ g t ms, SEvent.group_complete g t ms ∈ (streamGroups env tg links ml pg acc).1
      ∧ c ∈ ms := by
  intro links
  induction links with
  | nil => intro ml pg acc c hc; exact Or.inl hc
  | cons link rest ih =>
    intro ml pg acc c hc
    cases hres : get_group_entity env link with
    | httpErr m =>
      simp only [streamGroups_err env tg link rest ml pg acc m hres] at hc ⊢
      rcases ih ml pg acc c hc with h | ⟨g, t, ms, hmem, hcm⟩
      · exact Or.inl h
      · exact Or.inr ⟨g, t, ms, by simp [hmem], hcm⟩
    | ok s =>
      cases hb : (limActive ml && decide (limVal ml ≤ acc.length)) with
      | true =>
        simp only [streamGroups_break env tg link rest ml pg acc s hres hb] at hc ⊢
        exact Or.inl hc
      | false =>
        simp only [streamGroups_ok env tg link rest ml pg acc s hres hb] at hc ⊢
        rcases ih ml (pg + 1)
          (acc ++ gcConcat (scrape_group_members_progressive (sourceFetch s)
            (if limActive ml then some (limVal ml - acc.length) else none) s.title
            (s.parts.length + 1)).events) c hc with h | ⟨g, t, ms, hmem, hcm⟩
        · rcases List.mem_append.1 h with h2 | h2
          · exact Or.inl h2
          · obtain ⟨g, t, ms, hmem, hcm⟩ := gcConcat_mem _ c h2
            exact Or.inr ⟨g, t, ms, by simp [hmem], hcm⟩
        · exact Or.inr ⟨g, t, ms, by simp [hmem], hcm⟩

/-- The generator's exit reason is the loop's exit reason. -/
theorem prog_wrapper_exit (fetch : Nat → Nat → Nat → FetchResult) (limit : Option Nat)
    (gname : String) (fuel : Nat) :
    (scrape_group_members_progressive fetch limit gname fuel).exit
      = (progCore fetch limit gname fuel [] [] 0 0 0 0).exit := by
  simp only [scrape_group_members_progressive]
  split <;> rfl

/-- C10: in streaming mode, every contact of the final `complete` event is
carried by some `group_complete` event of the stream; and a source whose
pagination raises — even after emitting batch progress events — never
produces a `group_complete` event, so none of its records reach the final
aggregate through it. -/
theorem C10_errored_source_excluded :
    (∀ (env : String → Resolved) (raw : String) (ml : Option Nat) (n : Nat)
        (cs : List ContactInfo) (c : ContactInfo),
      (event_stream env raw ml).getLast? = some (SEvent.complete n cs) → c ∈ cs →
      ∃ g t ms, SEvent.group_complete g t ms ∈ event_stream env raw ml ∧ c ∈ ms)
    ∧ (∀ (fetch : Nat → Nat → Nat → FetchResult) (limit : Option Nat) (gname : String)
        (fuel : Nat) (m : String) (g : String) (t : Nat) (ms : List ContactInfo),
      (scrape_group_members_progressive fetch limit gname fuel).exit = ExitReason.errored m →
      SEvent.group_complete g t ms
        ∉ (scrape_group_members_progressive fetch limit gname fuel).events) := by
  constructor
  · intro env raw ml n cs c hlast hc
    cases hemp : (splitLinks raw).isEmpty with
    | true =>
      simp only [event_stream, hemp, if_true] at hlast
      simp only [List.getLast?] at hlast
      cases hlast
    | false =>
      simp only [event_stream, hemp, Bool.false_eq_true, if_false] at hlast ⊢
      rw [← List.cons_append, List.getLast?_concat] at hlast
      injection hlast with h2
      have hcs : cs = dedupById (streamGroups env (splitLinks raw).length (splitLinks raw)
          ml 0 []).2 := by
        cases h2
        rfl
      rw [hcs] at hc
      have hc2 : c ∈ (streamGroups env (splitLinks raw).length (splitLinks raw) ml 0 []).2 :=
        (dedupKeep_sublist _ []).mem hc
      rcases streamGroups_sound env (splitLinks raw).length (splitLinks raw) ml 0 [] c hc2
        with h | ⟨g, t, ms, hmem, hcm⟩
      · simp at h
      · exact ⟨g, t, ms, by simp [hmem], hcm⟩
  · intro fetch limit gname fuel m g t ms hexit
    have hcore : (progCore fetch limit gname fuel [] [] 0 0 0 0).exit
        = ExitReason.errored m := by
      rw [← prog_wrapper_exit]
      exact hexit
    rw [prog_wrapper_errored fetch limit gname fuel m hcore]
    intro hmem
    rcases List.mem_append.1 hmem with h | h
    · exact absurd h
        (progCore_no_gc fetch limit gname fuel [] [] 0 0 0 0 g t ms (by simp))
    · simp at h

/-- Witness for C10: source `e` fails on its second fetch after a progress
event; the final `complete` carries only source `k`'s member, and that
member indeed comes from a `group_complete` event, while the errored
source's generator emitted none. -/
theorem C10_errored_source_excluded_witness :
    (∃ g t ms, SEvent.group_complete g t ms ∈ event_stream env10 "e\nk" none
      ∧ extract_user_info (mkUser 7) ∈ ms)
    ∧ (SEvent.group_complete "E" 2
        ((usersOf srcErr.parts).map extract_user_info)
        ∉ (scrape_group_members_progressive (sourceFetch srcErr) none "E" 3).events) :=
  ⟨C10_errored_source_excluded.1 env10 "e\nk" none 1
      [extract_user_info (mkUser 7)] (extract_user_info (mkUser 7)) (by decide) (by decide),
   C10_errored_source_excluded.2 (sourceFetch srcErr) none "E" 3 "Flood" "E" 2
      ((usersOf srcErr.parts).map extract_user_info) (by decide)⟩

/-- C8 amended: a batch harvest that processes all its sources but collects
zero contacts returns success with an empty list and a message counting the
supplied (not successfully processed) groups; a failing source aborts the
harvest with that error; and an empty source list after splitting fails
with the explicit 400 error before any processing. -/
theorem C8_amended_zero_results :
    (scrape_telegram_members env8 "e" none
      = Except.ok
          { status := "success", contacts := [], total_contacts := 0,
            message := "Successfully scraped 0 unique members from 1 groups" })
    ∧ (scrape_telegram_members env8 "bad" none = Except.error "Group not found: bad")
    ∧ (∀ (env : String → Resolved) (ml : Option Nat),
        scrape_telegram_members env "" ml = Except.error "No valid group links provided") := by
  refine ⟨rfl, rfl, fun env ml => rfl⟩

end TgScrape

